import Mathlib

/-!
Namespace rate-limiter registry and PostgreSQL test-database helpers.

A shallow embedding of

* `service/history/globalratelimiter/ratelimiter_controller.go`
  (`ControllerProvider`, `ControllerImpl.GetNamespaceRateLimiter`), and
* `common/persistence/tests/postgresql_test_util.go`
  (`SetupPostgreSQLDatabase`, `TearDownPostgreSQLDatabase`),

followed by the properties proved about them.

Go pointers are addresses into an append-only heap (a list of objects, the
address being the index), so "the identical instance" is equality of
addresses.  A Go `map[string]V` is a function `String → Option V`
(`none` = key absent).  Go `int` values are integers; `float64(int)` is
modelled exactly (see `float64`).
-/

namespace globalratelimiter

/-! ## Numbers -/

/-- Number of low bits that do not fit in a 53-bit significand: the least `e`
with `a / 2 ^ e < 2 ^ 53` (`fuel` bounds the search; `fuel = a` always
suffices). -/
def excessBits : Nat → Nat → Nat
  | 0, _ => 0
  | fuel + 1, a => if a < 2 ^ 53 then 0 else excessBits fuel (a / 2) + 1

/-- Go conversion `float64(n)` of an `int`: the nearest IEEE-754 double, ties to
even.  Every double obtained from an integer is itself an integer, and that
integer is the result here.  Below `2 ^ 53` in absolute value the conversion is
exact; above, the value is rounded to 53 significant bits. -/
def float64 (n : Int) : Int :=
  let a := n.natAbs
  if a < 2 ^ 53 then n
  else
    let e := excessBits a a
    let q := a / 2 ^ e
    let r := a % 2 ^ e
    let half := 2 ^ (e - 1)
    let q1 := if half < r ∨ (r = half ∧ q % 2 = 1) then q + 1 else q
    (if n < 0 then -1 else 1) * ((q1 * 2 ^ e : Nat) : Int)

/-! ## Collaborators of the controller -/

/-- Type `log.Logger`: only stored by the controller, never used by it. -/
structure Logger where
  id : Nat
  deriving DecidableEq, Repr

/-- Type `metrics.Handler`: only stored by the controller, never used by it. -/
structure Handler where
  id : Nat
  deriving DecidableEq, Repr

/-- Type `configs.Config`, restricted to the one property the controller reads:
`NamespaceAPS`, a dynamic-configuration accessor `func(namespace string) int`.
A value of this type is the content of the configuration at one moment. -/
structure Config where
  NamespaceAPS : String → Int

/-- The function literal of `GetNamespaceRateLimiter`,
`func() float64 { return float64(c.config.NamespaceAPS(ns)) }`.
It captures the controller `c` (there is one controller per world) and the
variable `ns`; it has no other state. -/
structure RateFn where
  ns : String
  deriving DecidableEq, Repr

/-- Calling the function literal when the captured controller's `config` has
content `config`. -/
def RateFn.call (f : RateFn) (config : Config) : Int :=
  float64 (config.NamespaceAPS f.ns)

/-! ## Heap and limiter objects -/

/-- Objects the controller allocates. -/
inductive HeapObj
  /-- a `*quotas.RateLimiterImpl`, holding the rate function it was built with -/
  | rateLimiterImpl (rateFn : RateFn)
  /-- a `*quotas.RequestRateLimiterAdapterImpl`, holding the address of the
  rate limiter it wraps -/
  | adapterImpl (rateLimiter : Nat)
  deriving DecidableEq, Repr

/-- The heap: object at address `i` is the `i`-th element. -/
abbrev Heap := List HeapObj

/-- Allocation: the new object gets the first unused address. -/
def Heap.alloc (h : Heap) (o : HeapObj) : Nat × Heap :=
  (h.length, h ++ [o])

/-- An interface value of type `quotas.RequestRateLimiter`: `nil` or a pointer
to an adapter. -/
inductive RequestRateLimiter
  | nil
  | adapter (addr : Nat)
  deriving DecidableEq, Repr

/-- Modelled from the spec: `quotas.NewDefaultIncomingRateLimiter` (package
`common/quotas`, absent from the sources) "instantiat[es] a fresh Local Token
Bucket" that polls the rate supplier it is given: a new object holding
`rateFn` is allocated and its address returned. -/
def NewDefaultIncomingRateLimiter (h : Heap) (rateFn : RateFn) : Nat × Heap :=
  h.alloc (.rateLimiterImpl rateFn)

/-- Modelled from the spec: `quotas.NewRequestRateLimiterAdapter` (package
`common/quotas`, absent from the sources), the "Request Classifier / Adapter"
placed in front of one Local Token Bucket: a new adapter object holding the
address of the wrapped limiter is allocated and returned as an interface
value. -/
def NewRequestRateLimiterAdapter (h : Heap) (rateLimiter : Nat) :
    RequestRateLimiter × Heap :=
  let (p, h1) := h.alloc (.adapterImpl rateLimiter)
  (.adapter p, h1)

/-! ## The controller -/

/-- Struct `ControllerImpl` without its mutex (the mutex is part of the
concurrent model, `Pool`).  `config` is the current content of the
`*configs.Config` the controller points to. -/
structure ControllerImpl where
  rateLimiters : String → Option RequestRateLimiter
  logger : Logger
  metricsHandler : Handler
  config : Config

/-- Function `ControllerProvider`: an empty `rateLimiters` map. -/
def ControllerProvider (config : Config) (logger : Logger) (metricsHandler : Handler) :
    ControllerImpl :=
  { rateLimiters := fun _ => none
    logger := logger
    metricsHandler := metricsHandler
    config := config }

/-- Program state: the heap and the controller. -/
structure World where
  heap : Heap
  c : ControllerImpl

/-- Go `m[k]` in value position: the stored value, or the zero value `nil`. -/
def mapIndex (m : String → Option RequestRateLimiter) (k : String) : RequestRateLimiter :=
  (m k).getD .nil

/-- Go `m[k] = v`. -/
def mapAssign (m : String → Option RequestRateLimiter) (k : String) (v : RequestRateLimiter) :
    String → Option RequestRateLimiter :=
  fun j => if j = k then some v else m j

/-- Method `ControllerImpl.GetNamespaceRateLimiter`, run without interruption
(`Lock` at entry, deferred `Unlock` at exit): the returned interface value and
the state afterwards. -/
def GetNamespaceRateLimiter (w : World) (ns : String) : RequestRateLimiter × World :=
  match w.c.rateLimiters ns with
  | some limiter => (limiter, w)
  | none =>
    let (rl, h1) := NewDefaultIncomingRateLimiter w.heap { ns := ns }
    let (ad, h2) := NewRequestRateLimiterAdapter h1 rl
    let c1 : ControllerImpl := { w.c with rateLimiters := mapAssign w.c.rateLimiters ns ad }
    (mapIndex c1.rateLimiters ns, { heap := h2, c := c1 })

/-- The rate supplier wired into limiter `l`, evaluated in state `w`: follow the
adapter to its rate limiter and call the rate function stored there. `none`
when `l` is `nil` or does not point to an adapter over a rate limiter. -/
def RequestRateLimiter.rate (w : World) : RequestRateLimiter → Option Int
  | .nil => none
  | .adapter p =>
    match w.heap[p]? with
    | some (.adapterImpl q) =>
      match w.heap[q]? with
      | some (.rateLimiterImpl f) => some (f.call w.c.config)
      | _ => none
    | _ => none

/-- What happens to a world: a call of `GetNamespaceRateLimiter`, or the
configuration collaborator changing the content of the configuration. -/
inductive Action
  | get (ns : String)
  | configChange (config : Config)

/-- One action. -/
def step (w : World) : Action → World
  | .get ns => (GetNamespaceRateLimiter w ns).2
  | .configChange config => { w with c := { w.c with config := config } }

/-- A sequence of actions, left to right. -/
def run (w : World) (as : List Action) : World :=
  as.foldl step w

/-- A sequence of `GetNamespaceRateLimiter` calls, left to right. -/
def runCalls (w : World) (calls : List String) : World :=
  calls.foldl (fun w ns => (GetNamespaceRateLimiter w ns).2) w

/-- Number of adapters (limiter instances) on the heap. -/
def Heap.adapters (h : Heap) : Nat :=
  h.countP fun o => match o with
    | .adapterImpl _ => true
    | _ => false

/-- Number of rate limiters (local token buckets) on the heap. -/
def Heap.buckets (h : Heap) : Nat :=
  h.countP fun o => match o with
    | .rateLimiterImpl _ => true
    | _ => false

/-- The world right after `ControllerProvider`, with `h0` already allocated. -/
def initWorld (h0 : Heap) (config : Config) (logger : Logger) (metricsHandler : Handler) :
    World :=
  { heap := h0, c := ControllerProvider config logger metricsHandler }

/-- Modelled from the spec: the Global Usage Estimator (absent from the
sources) sets the fill rate of the Local Token Bucket to
`target_rate × max(share, floor)`, `share` being the traffic share estimated
from the peers' reports.  Values are the rationals that finite doubles denote;
`rnd` rounds the exact product to a double (the identity for exact
arithmetic). -/
def estimatorFillRate (rnd : ℚ → ℚ) (targetRate share floor : ℚ) : ℚ :=
  rnd (targetRate * max share floor)

/-- Every entry `k ↦ l` of the registry points to an adapter on the heap that
wraps a rate limiter whose rate function was built for `k`. -/
def WellFormed (w : World) : Prop :=
  ∀ k l, w.c.rateLimiters k = some l →
    ∃ p q, l = .adapter p ∧ w.heap[p]? = some (.adapterImpl q) ∧
      w.heap[q]? = some (.rateLimiterImpl { ns := k })

/-! ## Concurrent callers -/

/-- Where a goroutine running `GetNamespaceRateLimiter(ns)` stands: the statement
it executes next, with the values it holds. -/
inductive Pc
  /-- about to run `c.mutex.Lock()` -/
  | lock
  /-- about to run `limiter, ok := c.rateLimiters[ns]` and to branch on `ok` -/
  | lookup
  /-- about to evaluate `quotas.NewDefaultIncomingRateLimiter(func() …)` -/
  | newLimiter
  /-- about to evaluate `quotas.NewRequestRateLimiterAdapter(rl)` -/
  | newAdapter (rl : Nat)
  /-- about to run the assignment `c.rateLimiters[ns] = ad` -/
  | store (ad : RequestRateLimiter)
  /-- about to evaluate `c.rateLimiters[ns]` for the final `return` -/
  | reread
  /-- result fixed, the deferred `c.mutex.Unlock()` still to run -/
  | unlock (result : RequestRateLimiter)
  /-- the call has returned `result` -/
  | returned (result : RequestRateLimiter)
  deriving DecidableEq, Repr

/-- A goroutine running `GetNamespaceRateLimiter(ns)`. -/
structure Goroutine where
  ns : String
  pc : Pc
  deriving DecidableEq, Repr

/-- Several goroutines calling into one controller: the shared state, the
controller's `mutex` (`true` = locked) and the goroutines.  Executions are
interleavings of the goroutines' statements: every access to the shared state
lies between `Lock` and `Unlock`, so the program has no data race and the Go
memory model makes its executions sequentially consistent. -/
structure Pool where
  w : World
  mutex : Bool
  gs : List Goroutine

/-- Goroutine `i` is scheduled: it executes its next statement.  A goroutine
waiting in `Lock` for a locked mutex, one that has returned, and an index that
names no goroutine leave the pool as it is. -/
def stepG (s : Pool) (i : Nat) : Pool :=
  match s.gs[i]? with
  | none => s
  | some g =>
    match g.pc with
    | .lock =>
      if s.mutex then s
      else { s with mutex := true, gs := s.gs.set i { g with pc := .lookup } }
    | .lookup =>
      match s.w.c.rateLimiters g.ns with
      | some limiter => { s with gs := s.gs.set i { g with pc := .unlock limiter } }
      | none => { s with gs := s.gs.set i { g with pc := .newLimiter } }
    | .newLimiter =>
      let (rl, h1) := NewDefaultIncomingRateLimiter s.w.heap { ns := g.ns }
      { s with w := { s.w with heap := h1 }, gs := s.gs.set i { g with pc := .newAdapter rl } }
    | .newAdapter rl =>
      let (ad, h2) := NewRequestRateLimiterAdapter s.w.heap rl
      { s with w := { s.w with heap := h2 }, gs := s.gs.set i { g with pc := .store ad } }
    | .store ad =>
      { s with
        w := { s.w with c := { s.w.c with rateLimiters := mapAssign s.w.c.rateLimiters g.ns ad } }
        gs := s.gs.set i { g with pc := .reread } }
    | .reread =>
      { s with gs := s.gs.set i { g with pc := .unlock (mapIndex s.w.c.rateLimiters g.ns) } }
    | .unlock result =>
      { s with mutex := false, gs := s.gs.set i { g with pc := .returned result } }
    | .returned _ => s

/-- A schedule (the goroutine to run at each step), executed left to right. -/
def runPool (s : Pool) (sched : List Nat) : Pool :=
  sched.foldl stepG s

/-- The pool when the goroutines are about to call `GetNamespaceRateLimiter`, one
for each element of `nss`, on the controller of `w`; the mutex is free. -/
def startPool (w : World) (nss : List String) : Pool :=
  { w := w, mutex := false, gs := nss.map fun ns => { ns := ns, pc := .lock } }

/-- Whether the call has returned. -/
def Pc.isReturned : Pc → Bool
  | .returned _ => true
  | _ => false

/-- Whether every goroutine has returned. -/
def Pool.allReturned (s : Pool) : Bool :=
  s.gs.all fun g => g.pc.isReturned

/-- Statements a goroutine still has to execute, at most. -/
def Pc.remaining : Pc → Nat
  | .lock => 7
  | .lookup => 6
  | .newLimiter => 5
  | .newAdapter _ => 4
  | .store _ => 3
  | .reread => 2
  | .unlock _ => 1
  | .returned _ => 0

/-- Statements the goroutines of the pool still have to execute, at most. -/
def Pool.remaining (s : Pool) : Nat :=
  (s.gs.map fun g => g.pc.remaining).sum

/-- Whether a goroutine at `pc` is between `Lock` and `Unlock`. -/
def Pc.critical : Pc → Bool
  | .lock => false
  | .returned _ => false
  | _ => true

/-- Outside a call in progress the registry is in one of two states with respect to
`ns`: no entry and nothing constructed since the start (`a0` adapters, `b0`
buckets on the heap), or a non-nil entry and one adapter and one bucket more. -/
def Settled (ns : String) (a0 b0 : Nat) (w : World) : Prop :=
  (w.c.rateLimiters ns = none ∧ w.heap.adapters = a0 ∧ w.heap.buckets = b0) ∨
    ∃ r, w.c.rateLimiters ns = some r ∧ r ≠ .nil ∧
      w.heap.adapters = a0 + 1 ∧ w.heap.buckets = b0 + 1

/-- What holds of the shared state when a goroutine is at `pc`. -/
def PcOk (ns : String) (a0 b0 : Nat) (w : World) : Pc → Prop
  | .lock => True
  | .lookup => Settled ns a0 b0 w
  | .newLimiter =>
    w.c.rateLimiters ns = none ∧ w.heap.adapters = a0 ∧ w.heap.buckets = b0
  | .newAdapter _ =>
    w.c.rateLimiters ns = none ∧ w.heap.adapters = a0 ∧ w.heap.buckets = b0 + 1
  | .store ad =>
    w.c.rateLimiters ns = none ∧ ad ≠ .nil ∧
      w.heap.adapters = a0 + 1 ∧ w.heap.buckets = b0 + 1
  | .reread =>
    (∃ r, w.c.rateLimiters ns = some r ∧ r ≠ .nil) ∧
      w.heap.adapters = a0 + 1 ∧ w.heap.buckets = b0 + 1
  | .unlock r =>
    w.c.rateLimiters ns = some r ∧ r ≠ .nil ∧
      w.heap.adapters = a0 + 1 ∧ w.heap.buckets = b0 + 1
  | .returned r =>
    w.c.rateLimiters ns = some r ∧ r ≠ .nil ∧
      w.heap.adapters = a0 + 1 ∧ w.heap.buckets = b0 + 1

/-- Invariant of a pool whose goroutines all call for `ns`, started with `a0`
adapters and `b0` buckets on the heap. -/
structure PoolInv (ns : String) (a0 b0 : Nat) (s : Pool) : Prop where
  sameNs : ∀ (j : Nat) (g : Goroutine), s.gs[j]? = some g → g.ns = ns
  pcOk : ∀ (j : Nat) (g : Goroutine), s.gs[j]? = some g → PcOk ns a0 b0 s.w g.pc
  exclusive : ∀ (j k : Nat) (g1 g2 : Goroutine), s.gs[j]? = some g1 → s.gs[k]? = some g2 →
    g1.pc.critical = true → g2.pc.critical = true → j = k
  locked : s.mutex = true ↔
    ∃ (j : Nat) (g : Goroutine), s.gs[j]? = some g ∧ g.pc.critical = true
  settled : s.mutex = false → Settled ns a0 b0 s.w

end globalratelimiter

namespace tests

/-! ## PostgreSQL test-database helpers -/

/-- Struct `config.SQL`: the fields `NewPostgreSQLConfig` sets, and `rest` for all
the other fields of the struct (its declaration is in `common/config`).  A
struct copy `*cfg` copies every field, `rest` included. -/
structure SQL (Rest : Type) where
  User : String
  Password : String
  PluginName : String
  DatabaseName : String
  ConnectAddr : String
  ConnectProtocol : String
  rest : Rest
  deriving DecidableEq, Repr

/-- What the helpers do to the outside, in program order.  `db` is the handle
`sql.NewSQLAdminDB` returned. -/
inductive Call (Rest : Type)
  /-- The call `sql.NewSQLAdminDB(sqlplugin.DbKindUnknown, &adminCfg, …)`, with
  the content of `adminCfg` at the call -/
  | NewSQLAdminDB (adminCfg : SQL Rest)
  /-- The call `db.CreateDatabase(name)` -/
  | CreateDatabase (db : Nat) (name : String)
  /-- The call `db.DropDatabase(name)` -/
  | DropDatabase (db : Nat) (name : String)
  /-- the deferred `db.Close()` -/
  | Close (db : Nat)
  /-- The call `t.Fatalf(format, err)`: the test fails and the function is left, running
  its deferred calls -/
  | Fatalf (message : String)
  deriving DecidableEq, Repr

/-- The database side.  `NewSQLAdminDB` gets the address of `adminCfg`: it
answers with a handle or an error, and with the content it leaves in `adminCfg`.
`CreateDatabase` and `DropDatabase` answer with an error or `none`. -/
structure AdminEnv (Rest : Type) where
  NewSQLAdminDB : SQL Rest → Except String Nat × SQL Rest
  CreateDatabase : Nat → String → Option String
  DropDatabase : Nat → String → Option String

/-- Outcome of a helper: the calls made, whether `t.Fatalf` was reached, and the
content of the struct the caller's `cfg` points to, afterwards. -/
structure Outcome (Rest : Type) where
  calls : List (Call Rest)
  failed : Bool
  cfg : SQL Rest

/-- Function `SetupPostgreSQLDatabase(t, cfg)`; `cfg` is the struct pointed to. -/
def SetupPostgreSQLDatabase {Rest : Type} (env : AdminEnv Rest) (cfg : SQL Rest) :
    Outcome Rest :=
  let adminCfg := cfg
  let adminCfg := { adminCfg with DatabaseName := "" }
  match env.NewSQLAdminDB adminCfg with
  | (.error err, _) =>
    { calls := [.NewSQLAdminDB adminCfg,
        .Fatalf ("unable to create PostgreSQL admin DB: " ++ err)]
      failed := true
      cfg := cfg }
  | (.ok db, _) =>
    match env.CreateDatabase db cfg.DatabaseName with
    | some err =>
      { calls := [.NewSQLAdminDB adminCfg, .CreateDatabase db cfg.DatabaseName,
          .Fatalf ("unable to create PostgreSQL database: " ++ err), .Close db]
        failed := true
        cfg := cfg }
    | none =>
      { calls := [.NewSQLAdminDB adminCfg, .CreateDatabase db cfg.DatabaseName, .Close db]
        failed := false
        cfg := cfg }

/-- Function `TearDownPostgreSQLDatabase(t, cfg)`; `cfg` is the struct pointed to. -/
def TearDownPostgreSQLDatabase {Rest : Type} (env : AdminEnv Rest) (cfg : SQL Rest) :
    Outcome Rest :=
  let adminCfg := cfg
  let adminCfg := { adminCfg with DatabaseName := "" }
  match env.NewSQLAdminDB adminCfg with
  | (.error err, _) =>
    { calls := [.NewSQLAdminDB adminCfg,
        .Fatalf ("unable to create PostgreSQL admin DB: " ++ err)]
      failed := true
      cfg := cfg }
  | (.ok db, _) =>
    match env.DropDatabase db cfg.DatabaseName with
    | some err =>
      { calls := [.NewSQLAdminDB adminCfg, .DropDatabase db cfg.DatabaseName,
          .Fatalf ("unable to drop PostgreSQL database: " ++ err), .Close db]
        failed := true
        cfg := cfg }
    | none =>
      { calls := [.NewSQLAdminDB adminCfg, .DropDatabase db cfg.DatabaseName, .Close db]
        failed := false
        cfg := cfg }

/-- The database operations (create or drop) among the calls, in order. -/
def databaseOps {Rest : Type} (calls : List (Call Rest)) : List (Call Rest) :=
  calls.filter fun c => match c with
    | .CreateDatabase _ _ => true
    | .DropDatabase _ _ => true
    | _ => false

/-- The configurations the admin connection was asked for, in order. -/
def adminConfigs {Rest : Type} (calls : List (Call Rest)) : List (SQL Rest) :=
  calls.filterMap fun c => match c with
    | .NewSQLAdminDB a => some a
    | _ => none

end tests

/-! # Properties -/

namespace globalratelimiter

/-! ## The two branches of `GetNamespaceRateLimiter` -/

theorem get_of_present {w : World} {ns : String} {l : RequestRateLimiter}
    (h : w.c.rateLimiters ns = some l) : GetNamespaceRateLimiter w ns = (l, w) := by
  simp [GetNamespaceRateLimiter, h]

theorem get_of_absent {w : World} {ns : String} (h : w.c.rateLimiters ns = none) :
    GetNamespaceRateLimiter w ns =
      (.adapter (w.heap.length + 1),
        { heap := w.heap ++ [.rateLimiterImpl { ns := ns }] ++ [.adapterImpl w.heap.length]
          c := { w.c with
            rateLimiters := mapAssign w.c.rateLimiters ns (.adapter (w.heap.length + 1)) } }) := by
  simp [GetNamespaceRateLimiter, h, NewDefaultIncomingRateLimiter, NewRequestRateLimiterAdapter,
    Heap.alloc, mapIndex, mapAssign]

theorem mapAssign_same (m : String → Option RequestRateLimiter) (k : String)
    (v : RequestRateLimiter) : mapAssign m k v k = some v := by
  simp [mapAssign]

theorem mapAssign_other (m : String → Option RequestRateLimiter) {k j : String}
    (v : RequestRateLimiter) (h : j ≠ k) : mapAssign m k v j = m j := by
  simp [mapAssign, h]

/-- After a call the registry holds, under `ns`, the value that was returned. -/
theorem get_stores_result (w : World) (ns : String) :
    (GetNamespaceRateLimiter w ns).2.c.rateLimiters ns =
      some (GetNamespaceRateLimiter w ns).1 := by
  cases h : w.c.rateLimiters ns with
  | some l => rw [get_of_present h]; exact h
  | none => rw [get_of_absent h]; exact mapAssign_same _ _ _

/-- A call keeps every entry the registry had. -/
theorem get_keeps_entry (w : World) (ns : String) {k : String} {v : RequestRateLimiter}
    (h : w.c.rateLimiters k = some v) :
    (GetNamespaceRateLimiter w ns).2.c.rateLimiters k = some v := by
  cases hns : w.c.rateLimiters ns with
  | some l => rw [get_of_present hns]; exact h
  | none =>
    rw [get_of_absent hns]
    have hne : k ≠ ns := by
      rintro rfl
      rw [hns] at h
      cases h
    simpa [mapAssign_other _ _ hne] using h

/-- A call keeps every object of the heap at its address. -/
theorem get_keeps_object (w : World) (ns : String) {p : Nat} {o : HeapObj}
    (h : w.heap[p]? = some o) : (GetNamespaceRateLimiter w ns).2.heap[p]? = some o := by
  have hp : p < w.heap.length := by
    by_contra hlt
    rw [List.getElem?_eq_none (Nat.le_of_not_lt hlt)] at h
    cases h
  cases hns : w.c.rateLimiters ns with
  | some l => rw [get_of_present hns]; exact h
  | none =>
    rw [get_of_absent hns]
    show (w.heap ++ [HeapObj.rateLimiterImpl { ns := ns }] ++ [HeapObj.adapterImpl w.heap.length])[p]?
      = some o
    rw [List.append_assoc, List.getElem?_append_left hp]
    exact h

/-- C1: two consecutive calls `GetNamespaceRateLimiter(ns)` return the same
interface value (the same address, hence the identical instance), from every
state, whether or not `ns` had an entry before the first call; the second call
changes nothing. -/
theorem get_twice_same_instance (w : World) (ns : String) :
    (GetNamespaceRateLimiter (GetNamespaceRateLimiter w ns).2 ns).1 =
        (GetNamespaceRateLimiter w ns).1 ∧
      (GetNamespaceRateLimiter (GetNamespaceRateLimiter w ns).2 ns).2 =
        (GetNamespaceRateLimiter w ns).2 := by
  rw [get_of_present (get_stores_result w ns)]
  exact ⟨rfl, rfl⟩

/-- C4: the registry is append-only.  An entry `k ↦ v` present before a call
`GetNamespaceRateLimiter(ns)` is present after it with the same value `v`, and
every heap object, the instance `v` points to included, is still the same
object at the same address. -/
theorem get_append_only (w : World) (ns k : String) (v : RequestRateLimiter)
    (h : w.c.rateLimiters k = some v) :
    (GetNamespaceRateLimiter w ns).2.c.rateLimiters k = some v ∧
      ∀ (p : Nat) (o : HeapObj), w.heap[p]? = some o →
        (GetNamespaceRateLimiter w ns).2.heap[p]? = some o :=
  ⟨get_keeps_entry w ns h, fun _ _ ho => get_keeps_object w ns ho⟩

/-- Witness of `get_append_only`: the entry of "a" survives the call for "b". -/
theorem get_append_only_witness :
    (GetNamespaceRateLimiter (initWorld [] { NamespaceAPS := fun _ => 10 } ⟨0⟩ ⟨0⟩)
        "a").2.c.rateLimiters "a" = some (.adapter 1) ∧
      ((GetNamespaceRateLimiter
          (GetNamespaceRateLimiter (initWorld [] { NamespaceAPS := fun _ => 10 } ⟨0⟩ ⟨0⟩) "a").2
          "b").2.c.rateLimiters "a" = some (.adapter 1) ∧
        ∀ (p : Nat) (o : HeapObj),
          (GetNamespaceRateLimiter (initWorld [] { NamespaceAPS := fun _ => 10 } ⟨0⟩ ⟨0⟩)
            "a").2.heap[p]? = some o →
          (GetNamespaceRateLimiter
            (GetNamespaceRateLimiter (initWorld [] { NamespaceAPS := fun _ => 10 } ⟨0⟩ ⟨0⟩) "a").2
            "b").2.heap[p]? = some o) :=
  ⟨by decide,
    get_append_only
      (GetNamespaceRateLimiter (initWorld [] { NamespaceAPS := fun _ => 10 } ⟨0⟩ ⟨0⟩) "a").2
      "b" "a" (.adapter 1) (by decide)⟩

/-- The keys after a call are the old keys and `ns`. -/
theorem get_isSome_iff (w : World) (ns k : String) :
    ((GetNamespaceRateLimiter w ns).2.c.rateLimiters k).isSome ↔
      ((w.c.rateLimiters k).isSome ∨ k = ns) := by
  cases hns : w.c.rateLimiters ns with
  | some l =>
    rw [get_of_present hns]
    constructor
    · exact fun hk => Or.inl hk
    · rintro (hk | rfl)
      · exact hk
      · simp [hns]
  | none =>
    rw [get_of_absent hns]
    by_cases hk : k = ns
    · subst hk
      simp [mapAssign_same]
    · simp [mapAssign_other _ _ hk, hk]

/-- C9: after `GetNamespaceRateLimiter(ns)` the keys of the registry are the old
keys and `ns`; the entry under `ns` is the returned value; and when `ns` had an
entry already, the whole state (registry and heap) is unchanged. -/
theorem get_registry_effect (w : World) (ns : String) :
    (∀ k, ((GetNamespaceRateLimiter w ns).2.c.rateLimiters k).isSome ↔
        ((w.c.rateLimiters k).isSome ∨ k = ns)) ∧
      (GetNamespaceRateLimiter w ns).2.c.rateLimiters ns =
        some (GetNamespaceRateLimiter w ns).1 ∧
      ((w.c.rateLimiters ns).isSome → (GetNamespaceRateLimiter w ns).2 = w) := by
  refine ⟨fun k => get_isSome_iff w ns k, get_stores_result w ns, ?_⟩
  intro hs
  obtain ⟨l, hl⟩ := Option.isSome_iff_exists.mp hs
  rw [get_of_present hl]

/-- Witness of `get_registry_effect`: a call for "a", already present. -/
theorem get_registry_effect_witness :
    ((GetNamespaceRateLimiter (initWorld [] { NamespaceAPS := fun _ => 10 } ⟨0⟩ ⟨0⟩)
        "a").2.c.rateLimiters "a").isSome ∧
      (GetNamespaceRateLimiter
        (GetNamespaceRateLimiter (initWorld [] { NamespaceAPS := fun _ => 10 } ⟨0⟩ ⟨0⟩) "a").2
        "a").2 =
      (GetNamespaceRateLimiter (initWorld [] { NamespaceAPS := fun _ => 10 } ⟨0⟩ ⟨0⟩) "a").2 :=
  ⟨by decide,
    (get_registry_effect
      (GetNamespaceRateLimiter (initWorld [] { NamespaceAPS := fun _ => 10 } ⟨0⟩ ⟨0⟩) "a").2
      "a").2.2 (by decide)⟩

/-! ## The invariant of reachable states -/

theorem wellFormed_init (h0 : Heap) (config : Config) (logger : Logger)
    (metricsHandler : Handler) : WellFormed (initWorld h0 config logger metricsHandler) := by
  intro k l h
  simp [initWorld, ControllerProvider] at h

theorem wellFormed_get {w : World} (hw : WellFormed w) (ns : String) :
    WellFormed (GetNamespaceRateLimiter w ns).2 := by
  cases hns : w.c.rateLimiters ns with
  | some l0 => rw [get_of_present hns]; exact hw
  | none =>
    intro k l hkl
    rw [get_of_absent hns] at hkl ⊢
    by_cases hk : k = ns
    · subst hk
      simp only [mapAssign_same, Option.some.injEq] at hkl
      refine ⟨w.heap.length + 1, w.heap.length, hkl.symm, ?_, ?_⟩
      · show (w.heap ++ [HeapObj.rateLimiterImpl { ns := k }] ++
          [HeapObj.adapterImpl w.heap.length])[w.heap.length + 1]? = _
        rw [List.append_assoc, List.getElem?_append_right (Nat.le_succ _)]
        simp
      · show (w.heap ++ [HeapObj.rateLimiterImpl { ns := k }] ++
          [HeapObj.adapterImpl w.heap.length])[w.heap.length]? = _
        rw [List.append_assoc, List.getElem?_append_right (Nat.le_refl _)]
        simp
    · simp only [mapAssign_other _ _ hk] at hkl
      obtain ⟨p, q, hl, hp, hq⟩ := hw k l hkl
      have hp1 : p < w.heap.length := by
        by_contra hlt
        rw [List.getElem?_eq_none (Nat.le_of_not_lt hlt)] at hp
        cases hp
      have hq1 : q < w.heap.length := by
        by_contra hlt
        rw [List.getElem?_eq_none (Nat.le_of_not_lt hlt)] at hq
        cases hq
      refine ⟨p, q, hl, ?_, ?_⟩
      · show (w.heap ++ [HeapObj.rateLimiterImpl { ns := ns }] ++
          [HeapObj.adapterImpl w.heap.length])[p]? = _
        rw [List.append_assoc, List.getElem?_append_left hp1]
        exact hp
      · show (w.heap ++ [HeapObj.rateLimiterImpl { ns := ns }] ++
          [HeapObj.adapterImpl w.heap.length])[q]? = _
        rw [List.append_assoc, List.getElem?_append_left hq1]
        exact hq

theorem wellFormed_step {w : World} (hw : WellFormed w) (a : Action) :
    WellFormed (step w a) := by
  cases a with
  | get ns => exact wellFormed_get hw ns
  | configChange config => exact hw

theorem wellFormed_run {w : World} (hw : WellFormed w) (as : List Action) :
    WellFormed (run w as) := by
  induction as generalizing w with
  | nil => exact hw
  | cons a as ih => exact ih (wellFormed_step hw a)

theorem step_keeps_entry (w : World) (a : Action) {k : String} {v : RequestRateLimiter}
    (h : w.c.rateLimiters k = some v) : (step w a).c.rateLimiters k = some v := by
  cases a with
  | get ns => exact get_keeps_entry w ns h
  | configChange config => exact h

theorem run_keeps_entry (w : World) (as : List Action) {k : String} {v : RequestRateLimiter}
    (h : w.c.rateLimiters k = some v) : (run w as).c.rateLimiters k = some v := by
  induction as generalizing w with
  | nil => exact h
  | cons a as ih => exact ih (step w a) (step_keeps_entry w a h)

/-- In a well-formed state the rate supplier of the limiter stored under `k`
yields the conversion of what the accessor yields for `k` in that state. -/
theorem rate_of_entry {w : World} (hw : WellFormed w) {k : String} {l : RequestRateLimiter}
    (h : w.c.rateLimiters k = some l) :
    l.rate w = some (float64 (w.c.config.NamespaceAPS k)) := by
  obtain ⟨p, q, rfl, hp, hq⟩ := hw k l h
  simp [RequestRateLimiter.rate, hp, hq, RateFn.call]

/-- C3: in every state reached from `ControllerProvider` by calls of
`GetNamespaceRateLimiter` (and configuration changes), two namespaces mapped to
the same limiter instance are the same namespace: the `rateLimiters` map is
injective.  Every stored value is moreover a non-nil pointer to an adapter
allocated on the heap. -/
theorem registry_injective (h0 : Heap) (config : Config) (logger : Logger)
    (metricsHandler : Handler) (as : List Action) (k1 k2 : String) (l : RequestRateLimiter)
    (h1 : (run (initWorld h0 config logger metricsHandler) as).c.rateLimiters k1 = some l)
    (h2 : (run (initWorld h0 config logger metricsHandler) as).c.rateLimiters k2 = some l) :
    k1 = k2 ∧ ∃ p, l = .adapter p ∧
      p < (run (initWorld h0 config logger metricsHandler) as).heap.length := by
  have hw := wellFormed_run (wellFormed_init h0 config logger metricsHandler) as
  obtain ⟨p1, q1, hl1, hp1, hq1⟩ := hw k1 l h1
  obtain ⟨p2, q2, hl2, hp2, hq2⟩ := hw k2 l h2
  subst hl1
  cases hl2
  rw [hp1] at hp2
  cases hp2
  rw [hq1] at hq2
  cases hq2
  refine ⟨rfl, p1, rfl, ?_⟩
  by_contra hlt
  rw [List.getElem?_eq_none (Nat.le_of_not_lt hlt)] at hp1
  cases hp1

/-- Witness of `registry_injective`: after calls for "a" and "b", the instance at
address 1 is stored under "a" only. -/
theorem registry_injective_witness :
    (run (initWorld [] { NamespaceAPS := fun _ => 10 } ⟨0⟩ ⟨0⟩)
        [.get "a", .get "b"]).c.rateLimiters "a" = some (.adapter 1) ∧
      ("a" = "a" ∧ ∃ p, RequestRateLimiter.adapter 1 = .adapter p ∧
        p < (run (initWorld [] { NamespaceAPS := fun _ => 10 } ⟨0⟩ ⟨0⟩)
          [.get "a", .get "b"]).heap.length) :=
  ⟨by decide,
    registry_injective [] { NamespaceAPS := fun _ => 10 } ⟨0⟩ ⟨0⟩ [.get "a", .get "b"]
      "a" "a" (.adapter 1) (by decide) (by decide)⟩

/-! ## Counting constructions -/

theorem runCalls_append (w : World) (pre : List String) (ns : String) :
    runCalls w (pre ++ [ns]) = (GetNamespaceRateLimiter (runCalls w pre) ns).2 := by
  simp [runCalls, List.foldl_append]

theorem runCalls_isSome_iff (h0 : Heap) (config : Config) (logger : Logger)
    (metricsHandler : Handler) (calls : List String) (k : String) :
    ((runCalls (initWorld h0 config logger metricsHandler) calls).c.rateLimiters k).isSome ↔
      k ∈ calls := by
  induction calls using List.reverseRecOn with
  | nil => simp [runCalls, initWorld, ControllerProvider]
  | append_singleton pre ns ih =>
    rw [runCalls_append, get_isSome_iff, ih]
    simp

theorem adapters_get_of_absent {w : World} {ns : String} (h : w.c.rateLimiters ns = none) :
    (GetNamespaceRateLimiter w ns).2.heap.adapters = w.heap.adapters + 1 ∧
      (GetNamespaceRateLimiter w ns).2.heap.buckets = w.heap.buckets + 1 := by
  rw [get_of_absent h]
  simp [Heap.adapters, Heap.buckets, List.countP_append]

theorem dedup_length_append_singleton (pre : List String) (ns : String) :
    (pre ++ [ns]).dedup.length = pre.dedup.length + if ns ∈ pre then 0 else 1 := by
  rw [← List.card_toFinset, ← List.card_toFinset, List.toFinset_append]
  by_cases h : ns ∈ pre
  · have : pre.toFinset ∪ [ns].toFinset = pre.toFinset := by
      ext x
      simp only [Finset.mem_union, List.mem_toFinset, List.mem_singleton]
      constructor
      · rintro (hx | rfl)
        · exact hx
        · exact h
      · exact fun hx => Or.inl hx
    rw [this]
    simp [h]
  · have hd : Disjoint pre.toFinset [ns].toFinset := by
      rw [Finset.disjoint_left]
      intro x hx hx2
      simp only [List.mem_toFinset, List.mem_singleton] at hx hx2
      exact h (hx2 ▸ hx)
    rw [Finset.card_union_of_disjoint hd]
    simp [h]

theorem runCalls_counts (h0 : Heap) (config : Config) (logger : Logger)
    (metricsHandler : Handler) (calls : List String) :
    (runCalls (initWorld h0 config logger metricsHandler) calls).heap.adapters =
        h0.adapters + calls.dedup.length ∧
      (runCalls (initWorld h0 config logger metricsHandler) calls).heap.buckets =
        h0.buckets + calls.dedup.length := by
  induction calls using List.reverseRecOn with
  | nil => simp [runCalls, initWorld]
  | append_singleton pre ns ih =>
    rw [runCalls_append, dedup_length_append_singleton]
    by_cases h : ns ∈ pre
    · obtain ⟨l, hl⟩ := Option.isSome_iff_exists.mp
        ((runCalls_isSome_iff h0 config logger metricsHandler pre ns).mpr h)
      rw [get_of_present hl]
      simpa [h] using ih
    · have hnone : (runCalls (initWorld h0 config logger metricsHandler) pre).c.rateLimiters ns
          = none := by
        rw [← Option.not_isSome_iff_eq_none, runCalls_isSome_iff]
        exact h
      obtain ⟨ha, hb⟩ := adapters_get_of_absent hnone
      rw [ha, hb, ih.1, ih.2]
      simp [h, Nat.add_assoc]

/-- C2: on a controller fresh from `ControllerProvider` (heap `h0` allocated
before), a sequence of `GetNamespaceRateLimiter` calls constructs as many
limiters (adapters, and as many token buckets) as there are distinct namespaces
in the sequence.  At every position of the sequence the call constructs exactly
one limiter when its namespace has not occurred before, and changes nothing
when it has. -/
theorem constructed_once_per_namespace (h0 : Heap) (config : Config) (logger : Logger)
    (metricsHandler : Handler) (calls : List String) :
    (runCalls (initWorld h0 config logger metricsHandler) calls).heap.adapters =
        h0.adapters + calls.dedup.length ∧
      (runCalls (initWorld h0 config logger metricsHandler) calls).heap.buckets =
        h0.buckets + calls.dedup.length ∧
      ∀ pre ns post, calls = pre ++ ns :: post →
        (ns ∉ pre →
          (GetNamespaceRateLimiter
              (runCalls (initWorld h0 config logger metricsHandler) pre) ns).2.heap.adapters =
            (runCalls (initWorld h0 config logger metricsHandler) pre).heap.adapters + 1) ∧
        (ns ∈ pre →
          (GetNamespaceRateLimiter
              (runCalls (initWorld h0 config logger metricsHandler) pre) ns).2 =
            runCalls (initWorld h0 config logger metricsHandler) pre) := by
  refine ⟨(runCalls_counts h0 config logger metricsHandler calls).1,
    (runCalls_counts h0 config logger metricsHandler calls).2, ?_⟩
  intro pre ns post _
  constructor
  · intro h
    have hnone : (runCalls (initWorld h0 config logger metricsHandler) pre).c.rateLimiters ns
        = none := by
      rw [← Option.not_isSome_iff_eq_none, runCalls_isSome_iff]
      exact h
    exact (adapters_get_of_absent hnone).1
  · intro h
    obtain ⟨l, hl⟩ := Option.isSome_iff_exists.mp
      ((runCalls_isSome_iff h0 config logger metricsHandler pre ns).mpr h)
    rw [get_of_present hl]

/-- Witness of `constructed_once_per_namespace`: calls for "a", "b", "a" construct
two limiters, and the third call changes nothing. -/
theorem constructed_once_per_namespace_witness :
    (runCalls (initWorld [] { NamespaceAPS := fun _ => 10 } ⟨0⟩ ⟨0⟩)
        ["a", "b", "a"]).heap.adapters = 0 + 2 ∧
      "a" ∈ ["a", "b"] ∧
      (GetNamespaceRateLimiter
          (runCalls (initWorld [] { NamespaceAPS := fun _ => 10 } ⟨0⟩ ⟨0⟩) ["a", "b"]) "a").2 =
        runCalls (initWorld [] { NamespaceAPS := fun _ => 10 } ⟨0⟩ ⟨0⟩) ["a", "b"] :=
  ⟨(constructed_once_per_namespace [] { NamespaceAPS := fun _ => 10 } ⟨0⟩ ⟨0⟩
      ["a", "b", "a"]).1,
    by decide,
    ((constructed_once_per_namespace [] { NamespaceAPS := fun _ => 10 } ⟨0⟩ ⟨0⟩
      ["a", "b", "a"]).2.2 ["a", "b"] "a" [] rfl).2 (by decide)⟩

/-! ## The rate supplier -/

theorem float64_nonneg {n : Int} (h : 0 ≤ n) : 0 ≤ float64 n := by
  unfold float64
  simp only
  by_cases h1 : n.natAbs < 2 ^ 53
  · rw [if_pos h1]
    exact h
  · rw [if_neg h1, if_neg (not_lt.mpr h), one_mul]
    exact Int.natCast_nonneg _

/-- The limiter returned by a call, in a later state: still the registry entry,
and its rate supplier reads the configuration of that later state. -/
theorem rate_after_run {w : World} (hw : WellFormed w) (ns : String) (after : List Action) :
    (run (GetNamespaceRateLimiter w ns).2 after).c.rateLimiters ns =
        some (GetNamespaceRateLimiter w ns).1 ∧
      (GetNamespaceRateLimiter w ns).1.rate (run (GetNamespaceRateLimiter w ns).2 after) =
        some (float64 ((run (GetNamespaceRateLimiter w ns).2 after).c.config.NamespaceAPS ns)) := by
  have hentry := run_keeps_entry _ after (get_stores_result w ns)
  exact ⟨hentry, rate_of_entry (wellFormed_run (wellFormed_get hw ns) after) hentry⟩

/-- C5: the rate supplier of the limiter built for `ns` is not a snapshot.  Let
the limiter be obtained by `GetNamespaceRateLimiter(ns)` in any reachable state,
and let anything happen afterwards (further calls, configuration changes).
Evaluated then, the supplier yields `float64` of what `config.NamespaceAPS(ns)`
yields then, for that same `ns`; and a further call for `ns` still returns the
same instance, so nothing was recreated. -/
theorem rate_supplier_reads_live_config (h0 : Heap) (config : Config) (logger : Logger)
    (metricsHandler : Handler) (before after : List Action) (ns : String) :
    (GetNamespaceRateLimiter
        (run (initWorld h0 config logger metricsHandler) before) ns).1.rate
        (run (GetNamespaceRateLimiter
          (run (initWorld h0 config logger metricsHandler) before) ns).2 after) =
      some (float64 ((run (GetNamespaceRateLimiter
          (run (initWorld h0 config logger metricsHandler) before) ns).2 after).c.config.NamespaceAPS
            ns)) ∧
    (GetNamespaceRateLimiter
        (run (GetNamespaceRateLimiter
          (run (initWorld h0 config logger metricsHandler) before) ns).2 after) ns).1 =
      (GetNamespaceRateLimiter
        (run (initWorld h0 config logger metricsHandler) before) ns).1 := by
  have hw := wellFormed_run (wellFormed_init h0 config logger metricsHandler) before
  obtain ⟨hentry, hrate⟩ := rate_after_run hw ns after
  refine ⟨hrate, ?_⟩
  rw [get_of_present hentry]

/-- C7, as stated, fails: the configuration yields 10 for "acme" when the limiter
is built and its supplier returns 10; the accessor then yields 0 (the value it
falls back to), and the supplier returns 0, not the rate 10 observed before. -/
theorem fail_open_counterexample :
    (GetNamespaceRateLimiter (initWorld [] { NamespaceAPS := fun _ => 10 } ⟨0⟩ ⟨0⟩) "acme").1.rate
        (GetNamespaceRateLimiter (initWorld [] { NamespaceAPS := fun _ => 10 } ⟨0⟩ ⟨0⟩) "acme").2
        = some 10 ∧
      (GetNamespaceRateLimiter (initWorld [] { NamespaceAPS := fun _ => 10 } ⟨0⟩ ⟨0⟩) "acme").1.rate
        (step
          (GetNamespaceRateLimiter (initWorld [] { NamespaceAPS := fun _ => 10 } ⟨0⟩ ⟨0⟩) "acme").2
          (.configChange { NamespaceAPS := fun _ => 0 }))
        = some 0 ∧
      (GetNamespaceRateLimiter (initWorld [] { NamespaceAPS := fun _ => 10 } ⟨0⟩ ⟨0⟩) "acme").1.rate
        (step
          (GetNamespaceRateLimiter (initWorld [] { NamespaceAPS := fun _ => 10 } ⟨0⟩ ⟨0⟩) "acme").2
          (.configChange { NamespaceAPS := fun _ => 0 }))
        ≠ some 10 := by
  decide

/-- C7, amended: the rate supplier keeps no last observed rate.  After the
configuration changes to `cfg`, the supplier of the limiter for `ns` yields
`float64 (cfg.NamespaceAPS ns)`; it yields the rate it yielded before the change
exactly when the accessor, converted, still yields that rate. -/
theorem rate_supplier_keeps_no_last_rate (h0 : Heap) (config : Config) (logger : Logger)
    (metricsHandler : Handler) (before after : List Action) (ns : String) (cfg : Config) :
    (GetNamespaceRateLimiter
        (run (initWorld h0 config logger metricsHandler) before) ns).1.rate
        (step (run (GetNamespaceRateLimiter
          (run (initWorld h0 config logger metricsHandler) before) ns).2 after)
          (.configChange cfg)) =
      some (float64 (cfg.NamespaceAPS ns)) ∧
    ((GetNamespaceRateLimiter
        (run (initWorld h0 config logger metricsHandler) before) ns).1.rate
        (step (run (GetNamespaceRateLimiter
          (run (initWorld h0 config logger metricsHandler) before) ns).2 after)
          (.configChange cfg)) =
      (GetNamespaceRateLimiter
        (run (initWorld h0 config logger metricsHandler) before) ns).1.rate
        (run (GetNamespaceRateLimiter
          (run (initWorld h0 config logger metricsHandler) before) ns).2 after) ↔
      float64 (cfg.NamespaceAPS ns) =
        float64 ((run (GetNamespaceRateLimiter
          (run (initWorld h0 config logger metricsHandler) before) ns).2
            after).c.config.NamespaceAPS ns)) := by
  have hw := wellFormed_run (wellFormed_init h0 config logger metricsHandler) before
  have h1 := (rate_after_run hw ns after).2
  have h2 := (rate_after_run hw ns (after ++ [.configChange cfg])).2
  have hrun : ∀ w : World, run w (after ++ [.configChange cfg]) =
      step (run w after) (.configChange cfg) := by
    intro w
    simp [run, List.foldl_append]
  rw [hrun] at h2
  have hcfg : ∀ w : World, (step w (.configChange cfg)).c.config = cfg := fun _ => rfl
  rw [hcfg] at h2
  rw [h1, h2]
  simp

/-- C8: starvation floor.  Take the limiter of `ns` in any reachable state in
which the configured rate of `ns` is non-negative, and any monotone rounding
`rnd` of products to doubles.  The rate handed to the limiter is the full target
rate: its supplier yields exactly `float64 (NamespaceAPS ns)` of the current
configuration, whatever the peers report.  That rate is non-negative and, for
every `floor ≤ 1`, not below `target × floor` (the target being a double,
`rnd target = target`).  For every `share` the peers' reports may lead to and
every `floor`, the fill rate the estimator derives from that same target,
`target × max(share, floor)`, is not below `target × floor`; and with the share
of a sole instance, 1, it is `rnd target`, the rate the code hands over. -/
theorem rate_never_below_floor (h0 : Heap) (config : Config) (logger : Logger)
    (metricsHandler : Handler) (before after : List Action) (ns : String)
    (rnd : ℚ → ℚ) (hmono : Monotone rnd)
    (hrate : 0 ≤ (run (GetNamespaceRateLimiter
        (run (initWorld h0 config logger metricsHandler) before) ns).2
          after).c.config.NamespaceAPS ns) :
    (GetNamespaceRateLimiter
        (run (initWorld h0 config logger metricsHandler) before) ns).1.rate
        (run (GetNamespaceRateLimiter
          (run (initWorld h0 config logger metricsHandler) before) ns).2 after) =
      some (float64 ((run (GetNamespaceRateLimiter
        (run (initWorld h0 config logger metricsHandler) before) ns).2
          after).c.config.NamespaceAPS ns)) ∧
    0 ≤ float64 ((run (GetNamespaceRateLimiter
        (run (initWorld h0 config logger metricsHandler) before) ns).2
          after).c.config.NamespaceAPS ns) ∧
    (∀ floor : ℚ, floor ≤ 1 →
      rnd (float64 ((run (GetNamespaceRateLimiter
          (run (initWorld h0 config logger metricsHandler) before) ns).2
            after).c.config.NamespaceAPS ns) : ℚ) =
        (float64 ((run (GetNamespaceRateLimiter
          (run (initWorld h0 config logger metricsHandler) before) ns).2
            after).c.config.NamespaceAPS ns) : ℚ) →
      rnd ((float64 ((run (GetNamespaceRateLimiter
          (run (initWorld h0 config logger metricsHandler) before) ns).2
            after).c.config.NamespaceAPS ns) : ℚ) * floor) ≤
        (float64 ((run (GetNamespaceRateLimiter
          (run (initWorld h0 config logger metricsHandler) before) ns).2
            after).c.config.NamespaceAPS ns) : ℚ)) ∧
    (∀ share floor : ℚ,
      rnd ((float64 ((run (GetNamespaceRateLimiter
          (run (initWorld h0 config logger metricsHandler) before) ns).2
            after).c.config.NamespaceAPS ns) : ℚ) * floor) ≤
        estimatorFillRate rnd
          (float64 ((run (GetNamespaceRateLimiter
            (run (initWorld h0 config logger metricsHandler) before) ns).2
              after).c.config.NamespaceAPS ns) : ℚ) share floor) ∧
    ∀ floor : ℚ, floor ≤ 1 →
      estimatorFillRate rnd
          (float64 ((run (GetNamespaceRateLimiter
            (run (initWorld h0 config logger metricsHandler) before) ns).2
              after).c.config.NamespaceAPS ns) : ℚ) 1 floor =
        rnd (float64 ((run (GetNamespaceRateLimiter
          (run (initWorld h0 config logger metricsHandler) before) ns).2
            after).c.config.NamespaceAPS ns) : ℚ) := by
  have hw := wellFormed_run (wellFormed_init h0 config logger metricsHandler) before
  have ht : (0 : ℚ) ≤ ((float64 ((run (GetNamespaceRateLimiter
      (run (initWorld h0 config logger metricsHandler) before) ns).2
        after).c.config.NamespaceAPS ns) : Int) : ℚ) := by
    exact_mod_cast float64_nonneg hrate
  refine ⟨(rate_after_run hw ns after).2, float64_nonneg hrate, ?_, ?_, ?_⟩
  · intro floor hf hfix
    calc rnd (_ * floor) ≤ rnd _ := hmono (mul_le_of_le_one_right ht hf)
      _ = _ := hfix
  · intro share floor
    exact hmono (mul_le_mul_of_nonneg_left (le_max_right share floor) ht)
  · intro floor hf
    unfold estimatorFillRate
    rw [max_eq_left hf, mul_one]

/-- Witness of `rate_never_below_floor`: namespace "acme" configured at 100,
exact arithmetic, floor 1/100: the limiter is handed 100, not below 1. -/
theorem rate_never_below_floor_witness :
    Monotone (id : ℚ → ℚ) ∧
    (0 : Int) ≤ 100 ∧
    (GetNamespaceRateLimiter
        (run (initWorld [] { NamespaceAPS := fun _ => 100 } ⟨0⟩ ⟨0⟩) []) "acme").1.rate
        (run (GetNamespaceRateLimiter
          (run (initWorld [] { NamespaceAPS := fun _ => 100 } ⟨0⟩ ⟨0⟩) []) "acme").2 []) =
      some (float64 100) ∧
    id (((float64 100 : Int) : ℚ) * (1 / 100)) ≤ ((float64 100 : Int) : ℚ) :=
  ⟨monotone_id, by decide,
    (rate_never_below_floor [] { NamespaceAPS := fun _ => 100 } ⟨0⟩ ⟨0⟩ [] [] "acme" id
      monotone_id (by decide)).1,
    (rate_never_below_floor [] { NamespaceAPS := fun _ => 100 } ⟨0⟩ ⟨0⟩ [] [] "acme" id
      monotone_id (by decide)).2.2.1 (1 / 100) (by norm_num) rfl⟩

end globalratelimiter

namespace tests

/-- C10: for every configuration `cfg` and every behaviour of the database side,
`SetupPostgreSQLDatabase` and `TearDownPostgreSQLDatabase` ask for the admin
connection once, with a copy of `cfg` whose `DatabaseName` is empty and whose
other fields are those of `cfg`; they leave the caller's `cfg` as it was; when
the connection is obtained, the one database operation they issue is
`CreateDatabase cfg.DatabaseName` (respectively `DropDatabase cfg.DatabaseName`)
on the handle obtained; when it is not, they issue none. -/
theorem setup_teardown_database_names {Rest : Type} (env : AdminEnv Rest) (cfg : SQL Rest) :
    (adminConfigs (SetupPostgreSQLDatabase env cfg).calls = [{ cfg with DatabaseName := "" }] ∧
      (SetupPostgreSQLDatabase env cfg).cfg = cfg ∧
      (∀ db, (env.NewSQLAdminDB { cfg with DatabaseName := "" }).1 = .ok db →
        databaseOps (SetupPostgreSQLDatabase env cfg).calls =
          [.CreateDatabase db cfg.DatabaseName]) ∧
      (∀ err, (env.NewSQLAdminDB { cfg with DatabaseName := "" }).1 = .error err →
        databaseOps (SetupPostgreSQLDatabase env cfg).calls = [])) ∧
    (adminConfigs (TearDownPostgreSQLDatabase env cfg).calls =
        [{ cfg with DatabaseName := "" }] ∧
      (TearDownPostgreSQLDatabase env cfg).cfg = cfg ∧
      (∀ db, (env.NewSQLAdminDB { cfg with DatabaseName := "" }).1 = .ok db →
        databaseOps (TearDownPostgreSQLDatabase env cfg).calls =
          [.DropDatabase db cfg.DatabaseName]) ∧
      (∀ err, (env.NewSQLAdminDB { cfg with DatabaseName := "" }).1 = .error err →
        databaseOps (TearDownPostgreSQLDatabase env cfg).calls = [])) := by
  constructor
  · unfold SetupPostgreSQLDatabase
    rcases hopen : env.NewSQLAdminDB { cfg with DatabaseName := "" } with ⟨res, left⟩
    cases res with
    | error err => simp [hopen, adminConfigs, databaseOps]
    | ok db =>
      cases hcreate : env.CreateDatabase db cfg.DatabaseName <;>
        simp [hopen, hcreate, adminConfigs, databaseOps]
  · unfold TearDownPostgreSQLDatabase
    rcases hopen : env.NewSQLAdminDB { cfg with DatabaseName := "" } with ⟨res, left⟩
    cases res with
    | error err => simp [hopen, adminConfigs, databaseOps]
    | ok db =>
      cases hdrop : env.DropDatabase db cfg.DatabaseName <;>
        simp [hopen, hdrop, adminConfigs, databaseOps]

/-- Witness of `setup_teardown_database_names`: a database side that accepts
everything, handle 7, database "test_x". -/
theorem setup_teardown_database_names_witness :
    databaseOps (SetupPostgreSQLDatabase
        { NewSQLAdminDB := fun a => (.ok 7, a)
          CreateDatabase := fun _ _ => none
          DropDatabase := fun _ _ => none }
        { User := "temporal", Password := "temporal", PluginName := "postgres12",
          DatabaseName := "test_x", ConnectAddr := "127.0.0.1:5432", ConnectProtocol := "tcp",
          rest := () }).calls =
      [.CreateDatabase 7 "test_x"] :=
  (setup_teardown_database_names
    { NewSQLAdminDB := fun a => (.ok 7, a)
      CreateDatabase := fun _ _ => none
      DropDatabase := fun _ _ => none }
    { User := "temporal", Password := "temporal", PluginName := "postgres12",
      DatabaseName := "test_x", ConnectAddr := "127.0.0.1:5432", ConnectProtocol := "tcp",
      rest := () }).1.2.2.1 7 rfl

end tests

namespace globalratelimiter

/-! ## Concurrent callers -/

theorem getElem?_set_cases {α : Type} {l : List α} {i j : Nat} {a x : α}
    (h : (l.set i a)[j]? = some x) : (j = i ∧ x = a) ∨ (j ≠ i ∧ l[j]? = some x) := by
  by_cases hji : i = j
  · subst hji
    rw [List.getElem?_set] at h
    simp only [if_true] at h
    split_ifs at h
    cases h
    exact Or.inl ⟨rfl, rfl⟩
  · rw [List.getElem?_set_ne hji] at h
    exact Or.inr ⟨fun e => hji e.symm, h⟩

theorem getElem?_set_self_of_some {α : Type} {l : List α} {i : Nat} {a b : α}
    (h : l[i]? = some a) : (l.set i b)[i]? = some b := by
  have hi : i < l.length := by
    by_contra hlt
    rw [List.getElem?_eq_none (Nat.le_of_not_lt hlt)] at h
    cases h
  exact List.getElem?_set_self hi

/-- The invariant after goroutine `i`, being the holder of the mutex or finding it
free, has moved to `pc1` and left the shared state `w1`. -/
theorem PoolInv.update {ns : String} {a0 b0 : Nat} {s : Pool} (hinv : PoolInv ns a0 b0 s)
    {i : Nat} {g : Goroutine} (hg : s.gs[i]? = some g) (pc1 : Pc) (w1 : World) (m1 : Bool)
    (hent : g.pc.critical = true ∨ s.mutex = false)
    (hpc : PcOk ns a0 b0 w1 pc1)
    (hothers : ∀ pc : Pc, pc.critical = false → PcOk ns a0 b0 s.w pc → PcOk ns a0 b0 w1 pc)
    (hm : m1 = pc1.critical)
    (hsettled : m1 = false → Settled ns a0 b0 w1) :
    PoolInv ns a0 b0 { w := w1, mutex := m1, gs := s.gs.set i { g with pc := pc1 } } := by
  have hnocrit : ∀ (j : Nat) (x : Goroutine), j ≠ i → s.gs[j]? = some x →
      x.pc.critical = false := by
    intro j x hji hx
    cases hc : x.pc.critical with
    | false => rfl
    | true =>
      rcases hent with hgc | hfree
      · exact absurd (hinv.exclusive j i x g hx hg hc hgc) hji
      · have := hinv.locked.mpr ⟨j, x, hx, hc⟩
        rw [hfree] at this
        cases this
  constructor
  · intro j x hx
    rcases getElem?_set_cases hx with ⟨_, rfl⟩ | ⟨_, hx1⟩
    · exact hinv.sameNs i g hg
    · exact hinv.sameNs j x hx1
  · intro j x hx
    rcases getElem?_set_cases hx with ⟨_, rfl⟩ | ⟨hji, hx1⟩
    · exact hpc
    · exact hothers x.pc (hnocrit j x hji hx1) (hinv.pcOk j x hx1)
  · intro j k x y hx hy hxc hyc
    have hj : j = i := by
      rcases getElem?_set_cases hx with ⟨e, _⟩ | ⟨hji, hx1⟩
      · exact e
      · rw [hnocrit j x hji hx1] at hxc
        cases hxc
    have hk : k = i := by
      rcases getElem?_set_cases hy with ⟨e, _⟩ | ⟨hki, hy1⟩
      · exact e
      · rw [hnocrit k y hki hy1] at hyc
        cases hyc
    rw [hj, hk]
  · constructor
    · intro hm1
      exact ⟨i, { g with pc := pc1 }, getElem?_set_self_of_some hg, by rw [← hm]; exact hm1⟩
    · rintro ⟨j, x, hx, hxc⟩
      rcases getElem?_set_cases hx with ⟨_, rfl⟩ | ⟨hji, hx1⟩
      · rw [hm]
        exact hxc
      · rw [hnocrit j x hji hx1] at hxc
        cases hxc
  · exact hsettled

theorem pcOk_of_absent {ns : String} {a0 b0 : Nat} {w : World} (w1 : World)
    (habs : w.c.rateLimiters ns = none) (pc : Pc) (hc : pc.critical = false)
    (h : PcOk ns a0 b0 w pc) : PcOk ns a0 b0 w1 pc := by
  cases pc with
  | lock => trivial
  | returned r =>
    have h1 : w.c.rateLimiters ns = some r := h.1
    rw [habs] at h1
    cases h1
  | lookup => cases hc
  | newLimiter => cases hc
  | newAdapter rl => cases hc
  | store ad => cases hc
  | reread => cases hc
  | unlock r => cases hc

/-- Every step of every goroutine keeps the invariant. -/
theorem PoolInv.step {ns : String} {a0 b0 : Nat} {s : Pool} (hinv : PoolInv ns a0 b0 s)
    (i : Nat) : PoolInv ns a0 b0 (stepG s i) := by
  cases hg : s.gs[i]? with
  | none =>
    have : stepG s i = s := by simp [stepG, hg]
    rw [this]
    exact hinv
  | some g =>
    obtain ⟨gns, pc⟩ := g
    have hns : gns = ns := hinv.sameNs i _ hg
    subst hns
    have hok := hinv.pcOk i _ hg
    cases pc with
    | lock =>
      cases hmx : s.mutex with
      | true =>
        have : stepG s i = s := by simp [stepG, hg, hmx]
        rw [this]
        exact hinv
      | false =>
        have h := hinv.update hg .lookup s.w true (Or.inr hmx) (hinv.settled hmx)
          (fun _ _ h => h) rfl (by simp)
        simpa [stepG, hg, hmx] using h
    | lookup =>
      cases hreg : s.w.c.rateLimiters gns with
      | some l =>
        have hl : PcOk gns a0 b0 s.w (.unlock l) := by
          rcases hok with ⟨h1, _⟩ | ⟨r, h1, h2, h3⟩
          · rw [hreg] at h1
            cases h1
          · rw [hreg] at h1
            cases h1
            exact ⟨hreg, h2, h3⟩
        have h := hinv.update hg (.unlock l) s.w true (Or.inl rfl) hl
          (fun _ _ h => h) rfl (by simp)
        have hmx : s.mutex = true := hinv.locked.mpr ⟨i, _, hg, rfl⟩
        have e : stepG s i =
            { w := s.w, mutex := true, gs := s.gs.set i { ns := gns, pc := .unlock l } } := by
          simp [stepG, hg, hreg, ← hmx]
        rw [e]
        exact h
      | none =>
        have hl : PcOk gns a0 b0 s.w .newLimiter := by
          rcases hok with h1 | ⟨r, h1, _⟩
          · exact h1
          · rw [hreg] at h1
            cases h1
        have h := hinv.update hg .newLimiter s.w true (Or.inl rfl) hl
          (fun _ _ h => h) rfl (by simp)
        have hmx : s.mutex = true := hinv.locked.mpr ⟨i, _, hg, rfl⟩
        have e : stepG s i =
            { w := s.w, mutex := true, gs := s.gs.set i { ns := gns, pc := .newLimiter } } := by
          simp [stepG, hg, hreg, ← hmx]
        rw [e]
        exact h
    | newLimiter =>
      obtain ⟨h1, h2, h3⟩ := hok
      have hl : PcOk gns a0 b0
          { s.w with heap := s.w.heap ++ [.rateLimiterImpl { ns := gns }] }
          (.newAdapter s.w.heap.length) := by
        refine ⟨h1, ?_, ?_⟩
        · simpa [Heap.adapters, List.countP_append] using h2
        · simpa [Heap.buckets, List.countP_append] using h3
      have h := hinv.update hg (.newAdapter s.w.heap.length) _ true (Or.inl rfl) hl
        (pcOk_of_absent _ h1) rfl (by simp)
      have hmx : s.mutex = true := hinv.locked.mpr ⟨i, _, hg, rfl⟩
      have e : stepG s i =
          { w := { s.w with heap := s.w.heap ++ [.rateLimiterImpl { ns := gns }] }
            mutex := true
            gs := s.gs.set i { ns := gns, pc := .newAdapter s.w.heap.length } } := by
        simp [stepG, hg, ← hmx, NewDefaultIncomingRateLimiter, Heap.alloc]
      rw [e]
      exact h
    | newAdapter rl =>
      obtain ⟨h1, h2, h3⟩ := hok
      have hl : PcOk gns a0 b0
          { s.w with heap := s.w.heap ++ [.adapterImpl rl] }
          (.store (.adapter s.w.heap.length)) := by
        refine ⟨h1, by simp, ?_, ?_⟩
        · simpa [Heap.adapters, List.countP_append] using h2
        · simpa [Heap.buckets, List.countP_append] using h3
      have h := hinv.update hg (.store (.adapter s.w.heap.length)) _ true (Or.inl rfl) hl
        (pcOk_of_absent _ h1) rfl (by simp)
      have hmx : s.mutex = true := hinv.locked.mpr ⟨i, _, hg, rfl⟩
      have e : stepG s i =
          { w := { s.w with heap := s.w.heap ++ [.adapterImpl rl] }
            mutex := true
            gs := s.gs.set i { ns := gns, pc := .store (.adapter s.w.heap.length) } } := by
        simp [stepG, hg, ← hmx, NewRequestRateLimiterAdapter, Heap.alloc]
      rw [e]
      exact h
    | store ad =>
      obtain ⟨h1, h2, h3, h4⟩ := hok
      have hl : PcOk gns a0 b0
          { s.w with c := { s.w.c with rateLimiters := mapAssign s.w.c.rateLimiters gns ad } }
          .reread := ⟨⟨ad, mapAssign_same _ _ _, h2⟩, h3, h4⟩
      have h := hinv.update hg .reread _ true (Or.inl rfl) hl
        (pcOk_of_absent _ h1) rfl (by simp)
      have hmx : s.mutex = true := hinv.locked.mpr ⟨i, _, hg, rfl⟩
      have e : stepG s i =
          { w := { s.w with
              c := { s.w.c with rateLimiters := mapAssign s.w.c.rateLimiters gns ad } }
            mutex := true
            gs := s.gs.set i { ns := gns, pc := .reread } } := by
        simp [stepG, hg, ← hmx]
      rw [e]
      exact h
    | reread =>
      obtain ⟨⟨r, h1, h2⟩, h3, h4⟩ := hok
      have hidx : mapIndex s.w.c.rateLimiters gns = r := by simp [mapIndex, h1]
      have hl : PcOk gns a0 b0 s.w (.unlock r) := ⟨h1, h2, h3, h4⟩
      have h := hinv.update hg (.unlock r) s.w true (Or.inl rfl) hl
        (fun _ _ h => h) rfl (by simp)
      have hmx : s.mutex = true := hinv.locked.mpr ⟨i, _, hg, rfl⟩
      have e : stepG s i =
          { w := s.w, mutex := true, gs := s.gs.set i { ns := gns, pc := .unlock r } } := by
        simp [stepG, hg, ← hmx, hidx]
      rw [e]
      exact h
    | unlock r =>
      have hl : PcOk gns a0 b0 s.w (.returned r) := hok
      have h := hinv.update hg (.returned r) s.w false (Or.inl rfl) hl
        (fun _ _ h => h) rfl (fun _ => Or.inr ⟨r, hok⟩)
      have e : stepG s i =
          { w := s.w, mutex := false, gs := s.gs.set i { ns := gns, pc := .returned r } } := by
        simp [stepG, hg]
      rw [e]
      exact h
    | returned r =>
      have : stepG s i = s := by simp [stepG, hg]
      rw [this]
      exact hinv

theorem PoolInv.run {ns : String} {a0 b0 : Nat} {s : Pool} (hinv : PoolInv ns a0 b0 s)
    (sched : List Nat) : PoolInv ns a0 b0 (runPool s sched) := by
  induction sched generalizing s with
  | nil => exact hinv
  | cons i sched ih => exact ih (hinv.step i)

theorem PoolInv.start {w : World} {ns : String} (habs : w.c.rateLimiters ns = none)
    (n : Nat) :
    PoolInv ns w.heap.adapters w.heap.buckets (startPool w (List.replicate n ns)) := by
  have hmem : ∀ (j : Nat) (g : Goroutine),
      (startPool w (List.replicate n ns)).gs[j]? = some g → g = { ns := ns, pc := .lock } := by
    intro j g hg
    have := List.getElem?_mem hg
    simp only [startPool, List.map_replicate] at this
    exact (List.mem_replicate.mp this).2
  constructor
  · intro j g hg
    rw [hmem j g hg]
  · intro j g hg
    rw [hmem j g hg]
    trivial
  · intro j k g1 g2 h1 _ hc _
    rw [hmem j g1 h1] at hc
    cases hc
  · constructor
    · intro h
      cases h
    · rintro ⟨j, g, hg, hc⟩
      rw [hmem j g hg] at hc
      cases hc
  · intro _
    exact Or.inl ⟨habs, rfl, rfl⟩

/-! ### Every execution can be completed -/

theorem sum_map_set_lt {α : Type} (f : α → Nat) :
    ∀ (l : List α) (i : Nat) (a b : α), l[i]? = some a → f b < f a →
      ((l.set i b).map f).sum < (l.map f).sum := by
  intro l
  induction l with
  | nil =>
    intro i a b h
    simp at h
  | cons x xs ih =>
    intro i a b h hlt
    cases i with
    | zero =>
      simp only [List.getElem?_cons_zero, Option.some.injEq] at h
      subst h
      simp only [List.set_cons_zero, List.map_cons, List.sum_cons]
      omega
    | succ i =>
      simp only [List.getElem?_cons_succ] at h
      have := ih i a b h hlt
      simp only [List.set_cons_succ, List.map_cons, List.sum_cons]
      omega

/-- A goroutine inside the critical section, or at `Lock` with the mutex free,
executes a statement when scheduled, and has fewer statements left afterwards. -/
theorem stepG_moves {s : Pool} {i : Nat} {g : Goroutine} (hg : s.gs[i]? = some g)
    (h : g.pc.critical = true ∨ (g.pc = .lock ∧ s.mutex = false)) :
    ∃ w1 m1 pc1, stepG s i = { w := w1, mutex := m1, gs := s.gs.set i { g with pc := pc1 } } ∧
      pc1.remaining < g.pc.remaining := by
  obtain ⟨gns, pc⟩ := g
  cases pc with
  | lock =>
    rcases h with h | ⟨_, hmx⟩
    · cases h
    · exact ⟨s.w, true, .lookup, by simp [stepG, hg, hmx], by simp [Pc.remaining]⟩
  | lookup =>
    cases hreg : s.w.c.rateLimiters gns with
    | some l => exact ⟨s.w, s.mutex, .unlock l, by simp [stepG, hg, hreg], by simp [Pc.remaining]⟩
    | none => exact ⟨s.w, s.mutex, .newLimiter, by simp [stepG, hg, hreg], by simp [Pc.remaining]⟩
  | newLimiter =>
    exact ⟨{ s.w with heap := s.w.heap ++ [.rateLimiterImpl { ns := gns }] }, s.mutex,
      .newAdapter s.w.heap.length,
      by simp [stepG, hg, NewDefaultIncomingRateLimiter, Heap.alloc], by simp [Pc.remaining]⟩
  | newAdapter rl =>
    exact ⟨{ s.w with heap := s.w.heap ++ [.adapterImpl rl] }, s.mutex,
      .store (.adapter s.w.heap.length),
      by simp [stepG, hg, NewRequestRateLimiterAdapter, Heap.alloc], by simp [Pc.remaining]⟩
  | store ad =>
    exact ⟨{ s.w with
        c := { s.w.c with rateLimiters := mapAssign s.w.c.rateLimiters gns ad } }, s.mutex,
      .reread, by simp [stepG, hg], by simp [Pc.remaining]⟩
  | reread =>
    exact ⟨s.w, s.mutex, .unlock (mapIndex s.w.c.rateLimiters gns), by simp [stepG, hg],
      by simp [Pc.remaining]⟩
  | unlock r => exact ⟨s.w, false, .returned r, by simp [stepG, hg], by simp [Pc.remaining]⟩
  | returned r =>
    rcases h with h | ⟨h, _⟩
    · cases h
    · cases h

/-- No deadlock: unless every goroutine has returned, some goroutine can execute a
statement. -/
theorem PoolInv.progress {ns : String} {a0 b0 : Nat} {s : Pool} (hinv : PoolInv ns a0 b0 s) :
    s.allReturned = true ∨ ∃ i, (stepG s i).remaining < s.remaining := by
  have hmove : ∀ (i : Nat) (g : Goroutine), s.gs[i]? = some g →
      (g.pc.critical = true ∨ (g.pc = .lock ∧ s.mutex = false)) →
      ∃ i, (stepG s i).remaining < s.remaining := by
    intro i g hg h
    obtain ⟨w1, m1, pc1, e, hlt⟩ := stepG_moves hg h
    refine ⟨i, ?_⟩
    rw [e]
    exact sum_map_set_lt (fun g => g.pc.remaining) s.gs i g { g with pc := pc1 } hg hlt
  cases hmx : s.mutex with
  | true =>
    obtain ⟨j, g, hg, hc⟩ := hinv.locked.mp hmx
    exact Or.inr (hmove j g hg (Or.inl hc))
  | false =>
    by_cases hall : s.allReturned = true
    · exact Or.inl hall
    · right
      simp only [Pool.allReturned, List.all_eq_true, not_forall] at hall
      obtain ⟨g, hmem, hnot⟩ := hall
      obtain ⟨j, hg⟩ := List.mem_iff_getElem?.mp hmem
      have hnc : g.pc.critical = false := by
        cases hc : g.pc.critical with
        | false => rfl
        | true =>
          have := hinv.locked.mpr ⟨j, g, hg, hc⟩
          rw [hmx] at this
          cases this
      have hlock : g.pc = .lock := by
        cases hpc : g.pc with
        | lock => rfl
        | returned r => rw [hpc] at hnot; exact absurd rfl hnot
        | lookup => rw [hpc] at hnc; cases hnc
        | newLimiter => rw [hpc] at hnc; cases hnc
        | newAdapter rl => rw [hpc] at hnc; cases hnc
        | store ad => rw [hpc] at hnc; cases hnc
        | reread => rw [hpc] at hnc; cases hnc
        | unlock r => rw [hpc] at hnc; cases hnc
      exact hmove j g hg (Or.inr ⟨hlock, hmx⟩)

theorem PoolInv.completes {ns : String} {a0 b0 : Nat} (n : Nat) :
    ∀ s : Pool, PoolInv ns a0 b0 s → s.remaining ≤ n →
      ∃ more, (runPool s more).allReturned = true := by
  induction n with
  | zero =>
    intro s hinv hle
    rcases hinv.progress with hall | ⟨i, hlt⟩
    · exact ⟨[], hall⟩
    · omega
  | succ n ih =>
    intro s hinv hle
    rcases hinv.progress with hall | ⟨i, hlt⟩
    · exact ⟨[], hall⟩
    · obtain ⟨more, hmore⟩ := ih (stepG s i) (hinv.step i) (by omega)
      exact ⟨i :: more, hmore⟩

/-- One goroutine alone, scheduled seven times, does what the method does when
run without interruption. -/
theorem single_goroutine_is_sequential (w : World) (ns : String) :
    runPool (startPool w [ns]) (List.replicate 7 0) =
      { w := (GetNamespaceRateLimiter w ns).2
        mutex := false
        gs := [{ ns := ns, pc := .returned (GetNamespaceRateLimiter w ns).1 }] } := by
  cases h : w.c.rateLimiters ns with
  | some l =>
    rw [get_of_present h]
    simp [runPool, startPool, stepG, List.replicate, h]
  | none =>
    rw [get_of_absent h]
    simp [runPool, startPool, stepG, List.replicate, h, NewDefaultIncomingRateLimiter,
      NewRequestRateLimiterAdapter, Heap.alloc, mapIndex, mapAssign]

/-- C6: concurrent first-time calls for one namespace.  `n` goroutines call
`GetNamespaceRateLimiter(ns)` on a controller that has no entry for `ns`; the
scheduler interleaves their statements in any way (`sched`).  At every point of
every interleaving at most one limiter (one adapter, one token bucket) has been
constructed; every goroutine that has returned holds the non-nil instance stored
under `ns`, exactly one limiter having been constructed, so that all callers
receive the same instance; and the execution can always be continued until
every goroutine has returned. -/
theorem concurrent_first_calls_construct_once (w : World) (ns : String) (n : Nat)
    (sched : List Nat) (habsent : w.c.rateLimiters ns = none) :
    (runPool (startPool w (List.replicate n ns)) sched).w.heap.adapters ≤ w.heap.adapters + 1 ∧
    (runPool (startPool w (List.replicate n ns)) sched).w.heap.buckets ≤ w.heap.buckets + 1 ∧
    (∀ g ∈ (runPool (startPool w (List.replicate n ns)) sched).gs, ∀ r, g.pc = .returned r →
      (runPool (startPool w (List.replicate n ns)) sched).w.c.rateLimiters ns = some r ∧
      r ≠ .nil ∧
      (runPool (startPool w (List.replicate n ns)) sched).w.heap.adapters =
        w.heap.adapters + 1 ∧
      (runPool (startPool w (List.replicate n ns)) sched).w.heap.buckets =
        w.heap.buckets + 1) ∧
    (∀ g1 ∈ (runPool (startPool w (List.replicate n ns)) sched).gs,
      ∀ g2 ∈ (runPool (startPool w (List.replicate n ns)) sched).gs,
      ∀ r1 r2, g1.pc = .returned r1 → g2.pc = .returned r2 → r1 = r2) ∧
    ∃ more,
      (runPool (runPool (startPool w (List.replicate n ns)) sched) more).allReturned = true := by
  have hinv := (PoolInv.start habsent n).run sched
  have hret : ∀ g ∈ (runPool (startPool w (List.replicate n ns)) sched).gs, ∀ r,
      g.pc = .returned r →
      (runPool (startPool w (List.replicate n ns)) sched).w.c.rateLimiters ns = some r ∧
      r ≠ .nil ∧
      (runPool (startPool w (List.replicate n ns)) sched).w.heap.adapters =
        w.heap.adapters + 1 ∧
      (runPool (startPool w (List.replicate n ns)) sched).w.heap.buckets =
        w.heap.buckets + 1 := by
    intro g hmem r hpc
    obtain ⟨j, hg⟩ := List.mem_iff_getElem?.mp hmem
    have := hinv.pcOk j g hg
    rw [hpc] at this
    exact this
  have hbound : (runPool (startPool w (List.replicate n ns)) sched).w.heap.adapters ≤
        w.heap.adapters + 1 ∧
      (runPool (startPool w (List.replicate n ns)) sched).w.heap.buckets ≤
        w.heap.buckets + 1 := by
    cases hmx : (runPool (startPool w (List.replicate n ns)) sched).mutex with
    | false =>
      rcases hinv.settled hmx with ⟨_, h2, h3⟩ | ⟨r, _, _, h2, h3⟩
      · omega
      · omega
    | true =>
      obtain ⟨j, g, hg, hc⟩ := hinv.locked.mp hmx
      have hok := hinv.pcOk j g hg
      cases hpc : g.pc with
      | lock => rw [hpc] at hc; cases hc
      | returned r => rw [hpc] at hc; cases hc
      | lookup =>
        rw [hpc] at hok
        rcases hok with ⟨_, h2, h3⟩ | ⟨r, _, _, h2, h3⟩
        · omega
        · omega
      | newLimiter =>
        rw [hpc] at hok
        obtain ⟨_, h2, h3⟩ := hok
        omega
      | newAdapter rl =>
        rw [hpc] at hok
        obtain ⟨_, h2, h3⟩ := hok
        omega
      | store ad =>
        rw [hpc] at hok
        obtain ⟨_, _, h2, h3⟩ := hok
        omega
      | reread =>
        rw [hpc] at hok
        obtain ⟨_, h2, h3⟩ := hok
        omega
      | unlock r =>
        rw [hpc] at hok
        obtain ⟨_, _, h2, h3⟩ := hok
        omega
  refine ⟨hbound.1, hbound.2, hret, ?_, PoolInv.completes _ _ hinv (Nat.le_refl _)⟩
  intro g1 h1 g2 h2 r1 r2 e1 e2
  have a := (hret g1 h1 r1 e1).1
  have b := (hret g2 h2 r2 e2).1
  rw [a] at b
  exact Option.some.inj b

/-- Witness of `concurrent_first_calls_construct_once`: two goroutines call for
"acme" on a fresh controller; the second is scheduled three times while the
first holds the mutex; in the end both have returned. -/
theorem concurrent_first_calls_witness :
    (initWorld [] { NamespaceAPS := fun _ => 10 } ⟨0⟩ ⟨0⟩).c.rateLimiters "acme" = none ∧
      (runPool (startPool (initWorld [] { NamespaceAPS := fun _ => 10 } ⟨0⟩ ⟨0⟩)
          (List.replicate 2 "acme")) [0, 1, 0, 1, 0, 0, 1, 0, 0, 0, 1, 1, 1]).allReturned
        = true ∧
      ∀ g1 ∈ (runPool (startPool (initWorld [] { NamespaceAPS := fun _ => 10 } ⟨0⟩ ⟨0⟩)
          (List.replicate 2 "acme")) [0, 1, 0, 1, 0, 0, 1, 0, 0, 0, 1, 1, 1]).gs,
      ∀ g2 ∈ (runPool (startPool (initWorld [] { NamespaceAPS := fun _ => 10 } ⟨0⟩ ⟨0⟩)
          (List.replicate 2 "acme")) [0, 1, 0, 1, 0, 0, 1, 0, 0, 0, 1, 1, 1]).gs,
      ∀ r1 r2, g1.pc = .returned r1 → g2.pc = .returned r2 → r1 = r2 :=
  ⟨rfl, by decide,
    (concurrent_first_calls_construct_once
      (initWorld [] { NamespaceAPS := fun _ => 10 } ⟨0⟩ ⟨0⟩) "acme" 2
      [0, 1, 0, 1, 0, 0, 1, 0, 0, 0, 1, 1, 1] rfl).2.2.2.1⟩

end globalratelimiter
